import Mathlib

/-!
Verification of the analytics core of `streamlit_app.py` (a weekly
platform-traffic dashboard).  The development shallowly embeds the pure
computational parts of the source: column classification and numeric
normalization (`preprocess_data` / `is_text_col`), week-over-week delta
formatting (`fmt_delta`, `fmt_abs_delta`), the surge detector
(`check_surge` and its call sites), positional week resolution
(`mask` / `idx` / `latest` / `prev`), and the evidence-summary tail window
(`tail_df` / `safe_int` / `tail_rows`).  Python floats are modelled as
rationals; Python `None` / numbers / strings reaching a numeric coercion
are modelled by the `PyVal` type.
-/

namespace Dashboard

/-- Models a Python value as it can reach `float(...)` in the source:
`None`, an already-numeric value, or a raw string. -/
inductive PyVal where
  | none
  | num (q : ℚ)
  | str (s : String)
deriving DecidableEq, Repr

/-- Decimal digits (most significant first) to a natural number. -/
def digitsToNat (l : List Char) : ℕ :=
  l.foldl (fun acc c => 10 * acc + (c.toNat - 48)) 0

/-- Models Python numeric parsing (`float(s)` / `pd.to_numeric`):
optional sign, then digits with an optional fractional part.  Returns
`Option.none` on anything unparseable (e.g. `"-"` or `"abc"`). -/
def parseDecimal? (s : String) : Option ℚ :=
  let signed : Bool × List Char :=
    match s.data with
    | '-' :: rest => (true, rest)
    | '+' :: rest => (false, rest)
    | cs => (false, cs)
  let neg := signed.1
  let cs := signed.2
  let intPart := cs.takeWhile Char.isDigit
  let rest := cs.dropWhile Char.isDigit
  let applySign : ℚ → ℚ := fun q => if neg then -q else q
  match rest with
  | [] =>
      if intPart.isEmpty then Option.none
      else Option.some (applySign (digitsToNat intPart : ℚ))
  | '.' :: frac =>
      if frac.all Char.isDigit && !(intPart.isEmpty && frac.isEmpty) then
        Option.some
          (applySign ((digitsToNat intPart : ℚ) +
            (digitsToNat frac : ℚ) / (10 : ℚ) ^ frac.length))
      else Option.none
  | _ => Option.none

/-- Models Python `float(x)` on a `PyVal`: fails (raises, modelled as
`Option.none`) on `None` and on unparseable strings. -/
def pyFloat? : PyVal → Option ℚ
  | PyVal.none => Option.none
  | PyVal.num q => Option.some q
  | PyVal.str s => parseDecimal? s

/-- Rounding to the nearest integer (ties up), modelling the rounding a
Python format spec applies to the underlying value. -/
def roundQ (q : ℚ) : ℤ := ⌊q + 1 / 2⌋

/-- Truncation toward zero, modelling Python `int(...)` on a float. -/
def truncQ (q : ℚ) : ℤ := if 0 ≤ q then ⌊q⌋ else ⌈q⌉

/-- Sign prepended by a forced-sign Python format (`+` for `n ≥ 0`). -/
def signStr (n : ℤ) : String := if n < 0 then "-" else "+"

/-- Digits of a percentage already scaled to tenths: `n` tenths render as
the integer part, a dot and one decimal digit, then a percent sign. -/
def pct1Body (n : ℤ) : String :=
  toString (n.natAbs / 10) ++ "." ++ toString (n.natAbs % 10) ++ "%"

/-- Models the Python format `f"{pct:+.1f}%"`: forced sign and exactly
one decimal place. -/
def fmtPct1 (q : ℚ) : String :=
  signStr (roundQ (q * 10)) ++ pct1Body (roundQ (q * 10))

/-- Walks a reversed digit list and inserts a comma before every group
of three digits, the core of thousands grouping. -/
def commifyAux : List Char → ℕ → List Char
  | [], _ => []
  | c :: rest, k =>
      if k ≠ 0 && k % 3 == 0 then ',' :: c :: commifyAux rest (k + 1)
      else c :: commifyAux rest (k + 1)

/-- Thousands separators for a digit string. -/
def groupDigits (s : String) : String :=
  String.mk ((commifyAux s.data.reverse 0).reverse)

/-- Models the Python format `f"{x:+,.0f}"`: forced sign, thousands
separators, no decimal places. -/
def fmtAbsSigned (q : ℚ) : String :=
  signStr (roundQ q) ++ groupDigits (toString (roundQ q).natAbs)

/-- Embedding of `fmt_delta(curr, prev)` (src/streamlit_app.py:48-60):
`"N/A"` when `prev` is `None`, when either `float(...)` coercion raises,
or when the previous value is zero; otherwise the signed one-decimal
percentage `(curr - prev) / prev * 100`.  The `try/except` of the source
is modelled by the option-valued coercion, so the function is total and
never raises. -/
def fmt_delta (curr prev : PyVal) : String :=
  if prev = PyVal.none then "N/A"
  else
    match pyFloat? prev, pyFloat? curr with
    | Option.some prev_val, Option.some curr_val =>
        if prev_val = 0 then "N/A"
        else fmtPct1 ((curr_val - prev_val) / prev_val * 100)
    | _, _ => "N/A"

/-- Embedding of `fmt_abs_delta(curr, prev)` (src/streamlit_app.py:719-727):
`"N/A"` when `prev` is `None` or either `float(...)` coercion raises;
otherwise the signed, thousands-grouped difference `curr - prev`.  Note
the source has no zero check on `prev` here. -/
def fmt_abs_delta (curr prev : PyVal) : String :=
  if prev = PyVal.none then "N/A"
  else
    match pyFloat? curr, pyFloat? prev with
    | Option.some curr_val, Option.some prev_val =>
        fmtAbsSigned (curr_val - prev_val)
    | _, _ => "N/A"

/-- Alert data recorded by `check_surge` when a metric moved by at least
its threshold: the label, previous and current values, and the signed
fractional change (the rendered message string also derives a direction
from the sign of `pct`). -/
structure Alert where
  label : String
  prevVal : ℚ
  currVal : ℚ
  pct : ℚ
deriving DecidableEq, Repr

/-- Embedding of `check_surge(label, curr, prev, threshold)`
(src/streamlit_app.py:652-667): skips (returns `Option.none`) when
`prev` is `None`, when either `float(...)` coercion raises, or when the
previous value is zero; otherwise emits an alert iff the absolute
fractional change reaches the threshold (inclusive boundary). -/
def check_surge (label : String) (curr prev : PyVal) (threshold : ℚ) :
    Option Alert :=
  if prev = PyVal.none then Option.none
  else
    match pyFloat? prev, pyFloat? curr with
    | Option.some prev_val, Option.some curr_val =>
        if prev_val = 0 then Option.none
        else
          if threshold ≤ |(curr_val - prev_val) / prev_val| then
            Option.some
              ⟨label, prev_val, curr_val, (curr_val - prev_val) / prev_val⟩
          else Option.none
    | _, _ => Option.none

/-- Boolean test that `pat` occurs at the start of `l`. -/
def leadsWith : List Char → List Char → Bool
  | [], _ => true
  | _ :: _, [] => false
  | p :: ps, c :: cs => p == c && leadsWith ps cs

/-- Boolean test that `pat` occurs contiguously somewhere in `l`. -/
def containsSeq (pat : List Char) : List Char → Bool
  | [] => leadsWith pat []
  | c :: cs => leadsWith pat (c :: cs) || containsSeq pat cs

/-- Models Python `str.endswith`. -/
def strEndsWith (s pat : String) : Bool :=
  leadsWith pat.data.reverse s.data.reverse

/-- Models Python `in` on strings (substring containment). -/
def strContainsSub (s pat : String) : Bool :=
  containsSeq pat.data s.data

/-- Embedding of `is_text_col(col)` (src/streamlit_app.py:21-29): a
column keeps literal text iff its name is one of the week/date
identifiers, or it ends with the rank marker `순위` and mentions `키워드`
(keyword) or `기사` (article). -/
def is_text_col (col : String) : Bool :=
  if col == "주차" || col == "날짜" || col == "Date" then true
  else if strEndsWith col "순위" &&
      (strContainsSub col "키워드" || strContainsSub col "기사") then true
  else false

/-- Models Python `str.strip()`: removes leading and trailing
whitespace. -/
def strTrim (s : String) : String :=
  String.mk
    (((s.data.dropWhile Char.isWhitespace).reverse.dropWhile
        Char.isWhitespace).reverse)

/-- Removes every occurrence of one character, modelling
`str.replace(ch, "")` in `preprocess_data`. -/
def stripChar (target : Char) (s : String) : String :=
  String.mk (s.data.filter (fun c => c != target))

/-- Numeric-cell normalization of `preprocess_data`
(src/streamlit_app.py:36-43): strip commas, then strip percent signs,
then parse; any parse failure becomes `0` (`errors="coerce"` plus
`fillna(0)`). -/
def normalize_numeric_cell (s : String) : ℚ :=
  match parseDecimal? (stripChar '%' (stripChar ',' s)) with
  | Option.some q => q
  | Option.none => 0

/-- Result of processing one column of the table: either literal
(trimmed) text values or coerced numeric values. -/
inductive ProcCol where
  | text (cells : List String)
  | nums (cells : List ℚ)
deriving DecidableEq, Repr

/-- Embedding of the per-column body of `preprocess_data`
(src/streamlit_app.py:15-45): column names are whitespace-trimmed before
classification; text columns keep trimmed string values, every other
column is coerced cellwise to numbers. -/
def preprocess_column (name : String) (cells : List String) : ProcCol :=
  if is_text_col (strTrim name) then ProcCol.text (cells.map strTrim)
  else ProcCol.nums (cells.map normalize_numeric_cell)

/-- One row of the normalized table: the week label (the text column
`주차`) and the numeric cells keyed by column name. -/
structure Row where
  week : String
  vals : List (String × ℚ)
deriving DecidableEq, Repr

/-- Models `row.get(col, 0)` on the numeric columns of a pandas row. -/
def getNum (r : Row) (col : String) : ℚ :=
  (r.vals.lookup col).getD 0

/-- Models `row.get(col, None)` on the numeric columns of a pandas row,
lifted over an optional row: missing row or missing column gives the
Python `None`. -/
def getPy (r : Option Row) (col : String) : PyVal :=
  match r with
  | Option.none => PyVal.none
  | Option.some row =>
      match row.vals.lookup col with
      | Option.some v => PyVal.num v
      | Option.none => PyVal.none

/-- Composite app-download metric (src/streamlit_app.py:168-172): the
sum of the two OS-specific download columns, each defaulting to 0 when
absent. -/
def appTotal (r : Row) : ℚ :=
  getNum r "방송_AOS 다운로드" + getNum r "방송_iOS 다운로드"

/-- Position of the first row whose predicate holds, modelling
`df.index[mask][0]` over a default integer index. -/
def firstMatchIdx (p : Row → Bool) : List Row → Option ℕ
  | [] => Option.none
  | r :: rest =>
      if p r then Option.some 0
      else (firstMatchIdx p rest).map (fun i => i + 1)

/-- Embedding of the week resolution block (src/streamlit_app.py:155-163):
if some row's `주차` equals the selection, the current row is the first
such row and the previous row is the one at the preceding position (none
at position 0); otherwise fall back to the last row as current and the
penultimate row as previous.  The table carries the default `RangeIndex`
of `pd.read_csv`, so `idx - 1 in df.index` is exactly `1 ≤ idx`. -/
def resolve (rows : List Row) (selected : String) :
    Option (Row × Option Row) :=
  match firstMatchIdx (fun r => r.week == selected) rows with
  | Option.some i =>
      match rows[i]? with
      | Option.some latest =>
          Option.some (latest, if 1 ≤ i then rows[i - 1]? else Option.none)
      | Option.none => Option.none
  | Option.none =>
      match rows.getLast? with
      | Option.some latest =>
          Option.some
            (latest,
              if 2 ≤ rows.length then rows[rows.length - 2]?
              else Option.none)
      | Option.none => Option.none

/-- The `(label, curr, prev, threshold)` tuples of the six `check_surge`
call sites (src/streamlit_app.py:670-677), in source order.  The current
side uses `latest.get(col, 0)`; the previous side uses
`prev.get(col, None)` guarded by `prev is not None`, except the
app-download composite whose per-OS summands default to 0. -/
def surge_inputs (latest : Row) (prev : Option Row) :
    List (String × PyVal × PyVal × ℚ) :=
  [("방송 PV", PyVal.num (getNum latest "방송_PV"), getPy prev "방송_PV", 0.1),
   ("뉴스 PV", PyVal.num (getNum latest "뉴스_PV"), getPy prev "뉴스_PV", 0.1),
   ("방송 앱 다운로드", PyVal.num (appTotal latest),
     (match prev with
      | Option.some p => PyVal.num (appTotal p)
      | Option.none => PyVal.none), 0.15),
   ("신규회원", PyVal.num (getNum latest "신규회원"), getPy prev "신규회원", 0.2),
   ("탈퇴회원", PyVal.num (getNum latest "탈퇴회원"), getPy prev "탈퇴회원", 0.2),
   ("누적전환회원", PyVal.num (getNum latest "누적전환회원"),
     getPy prev "누적전환회원", 0.05)]

/-- Runs the six surge checks of src/streamlit_app.py:670-677 and
collects the emitted alerts in order. -/
def run_surge_checks (latest : Row) (prev : Option Row) : List Alert :=
  (surge_inputs latest prev).filterMap
    (fun x => check_surge x.1 x.2.1 x.2.2.1 x.2.2.2)

/-- Embedding of `safe_int(x)` (src/streamlit_app.py:713-717):
`int(float(x))`, i.e. parse then truncate toward zero, with any failure
becoming 0. -/
def safe_int (v : PyVal) : ℤ :=
  match pyFloat? v with
  | Option.some q => truncQ q
  | Option.none => 0

/-- Embedding of `df.tail(n)` on the row list: the trailing `n` rows in
table order (all rows when the table is shorter). -/
def tailWindow (rows : List Row) (n : ℕ) : List Row :=
  rows.drop (rows.length - n)

/-- Projection of one trailing-window row to the evidence summary's
fixed metric set (src/streamlit_app.py:741-753): the week label plus
eight integer-coerced metrics, the app-download entry summing the two
OS-specific columns. -/
def snapshot_of_row (r : Row) : String × List (String × ℤ) :=
  (r.week,
   [("방송_PV", safe_int (PyVal.num (getNum r "방송_PV"))),
    ("뉴스_PV", safe_int (PyVal.num (getNum r "뉴스_PV"))),
    ("방송_사용자", safe_int (PyVal.num (getNum r "방송_사용자"))),
    ("앱다운로드", safe_int (PyVal.num (appTotal r))),
    ("총회원수", safe_int (PyVal.num (getNum r "총회원수"))),
    ("누적전환회원", safe_int (PyVal.num (getNum r "누적전환회원"))),
    ("신규회원", safe_int (PyVal.num (getNum r "신규회원"))),
    ("탈퇴회원", safe_int (PyVal.num (getNum r "탈퇴회원")))])

/-- Embedding of the `tail_rows` construction
(src/streamlit_app.py:710-753): the trailing eight-row window projected
row by row to the fixed metric set. -/
def tail_rows (rows : List Row) : List (String × List (String × ℤ)) :=
  (tailWindow rows 8).map snapshot_of_row

/-- Example current-week row (every metric at 112, the app downloads
split 56 + 56) used to exercise the surge call sites. -/
def surgeExLatest : Row :=
  ⟨"W2", [("방송_PV", 112), ("뉴스_PV", 112), ("방송_AOS 다운로드", 56),
    ("방송_iOS 다운로드", 56), ("신규회원", 112), ("탈퇴회원", 112),
    ("누적전환회원", 112)]⟩

/-- Example previous-week row (every metric at 100, the app downloads
split 50 + 50), giving a uniform +12% change against `surgeExLatest`. -/
def surgeExPrev : Row :=
  ⟨"W1", [("방송_PV", 100), ("뉴스_PV", 100), ("방송_AOS 다운로드", 50),
    ("방송_iOS 다운로드", 50), ("신규회원", 100), ("탈퇴회원", 100),
    ("누적전환회원", 100)]⟩

/-! Helper lemmas. -/

lemma append_ne_NA (s t : String) (h : s = "+" ∨ s = "-") : s ++ t ≠ "N/A" := by
  intro hEq
  have hdata : s.data ++ t.data = ['N', '/', 'A'] := by
    rw [← String.data_append, hEq]
  rcases h with h | h <;> subst h <;> simp at hdata

lemma signStr_cases (n : ℤ) : signStr n = "+" ∨ signStr n = "-" := by
  unfold signStr
  by_cases h : n < 0 <;> simp [h]

lemma fmtPct1_ne_NA (q : ℚ) : fmtPct1 q ≠ "N/A" :=
  append_ne_NA _ _ (signStr_cases _)

lemma fmtAbsSigned_ne_NA (q : ℚ) : fmtAbsSigned q ≠ "N/A" :=
  append_ne_NA _ _ (signStr_cases _)

/-- C1: `fmt_delta` returns `"N/A"` exactly when the previous operand is
`None` or unparseable, the current operand is unparseable, or the
previous value is zero; in every other case it returns the
forced-sign, one-decimal rendering of `(curr - prev) / prev * 100`.
Totality of the Lean function witnesses that nothing propagates to the
caller. -/
theorem fmt_delta_spec (curr prev : PyVal) :
    (fmt_delta curr prev = "N/A" ↔
      pyFloat? prev = Option.none ∨ pyFloat? curr = Option.none ∨
        pyFloat? prev = Option.some 0) ∧
    (∀ c p : ℚ, pyFloat? curr = Option.some c → pyFloat? prev = Option.some p →
      p ≠ 0 → fmt_delta curr prev = fmtPct1 ((c - p) / p * 100)) := by
  constructor
  · by_cases hpn : prev = PyVal.none
    · subst hpn
      simp [fmt_delta, pyFloat?]
    · rw [fmt_delta, if_neg hpn]
      cases hp : pyFloat? prev with
      | none => simp [hp]
      | some p =>
          cases hc : pyFloat? curr with
          | none => simp [hp, hc]
          | some c =>
              by_cases hp0 : p = 0
              · subst hp0
                simp [hp, hc]
              · simp [hp, hc, hp0, fmtPct1_ne_NA]
  · intro c p hc hp hp0
    have hpn : prev ≠ PyVal.none := by
      intro h
      subst h
      simp [pyFloat?] at hp
    rw [fmt_delta, if_neg hpn, hp, hc]
    simp [hp0]

/-- Witness for C1: on the spec scenario `curr = 120`, `prev = 100` the
non-`"N/A"` branch applies. -/
theorem fmt_delta_spec_witness :
    fmt_delta (PyVal.num 120) (PyVal.num 100) =
      fmtPct1 ((120 - 100) / 100 * 100) :=
  (fmt_delta_spec (PyVal.num 120) (PyVal.num 100)).2 120 100 rfl rfl
    (by norm_num)


/-- C2: for parseable operands with a non-zero previous value,
`check_surge` emits the alert `(label, prev, curr, (curr-prev)/prev)` iff
the absolute fractional change is at least the threshold (the boundary
is inclusive since the source compares with `>=`), and it stays silent
exactly otherwise; a `None`, zero, or unparseable previous value and an
unparseable current value all skip silently. -/
theorem check_surge_spec (label : String) (curr prev : PyVal) (t : ℚ) :
    (∀ c p : ℚ, pyFloat? curr = Option.some c → pyFloat? prev = Option.some p →
      p ≠ 0 →
      (check_surge label curr prev t =
          Option.some ⟨label, p, c, (c - p) / p⟩ ↔ t ≤ |(c - p) / p|) ∧
      (check_surge label curr prev t = Option.none ↔ ¬ t ≤ |(c - p) / p|)) ∧
    (pyFloat? prev = Option.none ∨ pyFloat? prev = Option.some 0 ∨
        pyFloat? curr = Option.none →
      check_surge label curr prev t = Option.none) := by
  constructor
  · intro c p hc hp hp0
    have hpn : prev ≠ PyVal.none := by
      intro h
      subst h
      simp [pyFloat?] at hp
    rw [check_surge, if_neg hpn, hp, hc]
    by_cases ht : t ≤ |(c - p) / p| <;> simp [hp0, ht]
  · intro h
    by_cases hpn : prev = PyVal.none
    · subst hpn
      simp [check_surge]
    · rw [check_surge, if_neg hpn]
      rcases h with h | h | h
      · simp [h]
      · cases hc : pyFloat? curr with
        | none => simp [h, hc]
        | some c => simp [h, hc]
      · cases hp : pyFloat? prev with
        | none => simp [hp]
        | some p => simp [hp, h]

/-- Witness for C2, at the inclusive boundary: a change of exactly 10%
against threshold 0.1 does emit an alert. -/
theorem check_surge_spec_witness :
    check_surge "뉴스 PV" (PyVal.num 110) (PyVal.num 100) 0.1 =
      Option.some ⟨"뉴스 PV", 100, 110, (110 - 100) / 100⟩ :=
  (((check_surge_spec "뉴스 PV" (PyVal.num 110) (PyVal.num 100) 0.1).1
      110 100 rfl rfl (by norm_num)).1).mpr
    (by rw [abs_of_nonneg (by norm_num)] ; norm_num)

/-- Counterexample to C3 as stated: with `prev = 0` and `curr = 50` the
source computes `"+50"` and does not return `"N/A"` - `fmt_abs_delta`
has no zero-baseline guard (the guard exists only in `fmt_delta`). -/
theorem fmt_abs_delta_zero_prev :
    fmt_abs_delta (PyVal.num 50) (PyVal.num 0) = "+50" ∧
    fmt_abs_delta (PyVal.num 50) (PyVal.num 0) ≠ "N/A" := by
  have hstep : fmt_abs_delta (PyVal.num 50) (PyVal.num 0) =
      fmtAbsSigned ((50 : ℚ) - 0) := rfl
  have h50 : roundQ ((50 : ℚ) - 0) = 50 := by
    rw [roundQ, Int.floor_eq_iff]
    constructor <;> norm_num
  constructor
  · rw [hstep, fmtAbsSigned, h50]
    decide
  · rw [hstep]
    exact fmtAbsSigned_ne_NA _

/-- C3 (amended): `fmt_abs_delta` returns `"N/A"` exactly when `prev`
is `None` or unparseable or `curr` is unparseable; otherwise - including
when `prev` is zero - it returns `curr - prev` with thousands separators
and a forced sign. -/
theorem fmt_abs_delta_spec (curr prev : PyVal) :
    (fmt_abs_delta curr prev = "N/A" ↔
      pyFloat? prev = Option.none ∨ pyFloat? curr = Option.none) ∧
    (∀ c p : ℚ, pyFloat? curr = Option.some c → pyFloat? prev = Option.some p →
      fmt_abs_delta curr prev = fmtAbsSigned (c - p)) := by
  constructor
  · by_cases hpn : prev = PyVal.none
    · subst hpn
      simp [fmt_abs_delta, pyFloat?]
    · rw [fmt_abs_delta, if_neg hpn]
      cases hp : pyFloat? prev with
      | none => simp [hp]
      | some p =>
          cases hc : pyFloat? curr with
          | none => simp [hp, hc]
          | some c => simp [hp, hc, fmtAbsSigned_ne_NA]
  · intro c p hc hp
    have hpn : prev ≠ PyVal.none := by
      intro h
      subst h
      simp [pyFloat?] at hp
    rw [fmt_abs_delta, if_neg hpn, hp, hc]

/-- Witness for C3 (amended) on parseable operands. -/
theorem fmt_abs_delta_spec_witness :
    fmt_abs_delta (PyVal.num 120) (PyVal.num 100) = fmtAbsSigned (120 - 100) :=
  (fmt_abs_delta_spec (PyVal.num 120) (PyVal.num 100)).2 120 100 rfl rfl


/-- C4: numeric normalization strips commas, then percent signs, then
parses, substituting 0 on failure: `"1,234%"` becomes `1234`, the
unparseable `"-"` becomes `0`, and in general a successful parse of the
stripped cell is returned while a failed one yields `0`, never an
error. -/
theorem normalize_spec :
    normalize_numeric_cell "1,234%" = 1234 ∧
    normalize_numeric_cell "-" = 0 ∧
    (∀ s : String, ∀ q : ℚ,
      parseDecimal? (stripChar '%' (stripChar ',' s)) = Option.some q →
      normalize_numeric_cell s = q) ∧
    (∀ s : String,
      parseDecimal? (stripChar '%' (stripChar ',' s)) = Option.none →
      normalize_numeric_cell s = 0) := by
  refine ⟨?_, ?_, ?_, ?_⟩
  · have h : parseDecimal? (stripChar '%' (stripChar ',' "1,234%")) =
        Option.some ((1234 : ℕ) : ℚ) := by decide
    rw [normalize_numeric_cell, h]
    norm_num
  · rfl
  · intro s q h
    rw [normalize_numeric_cell, h]
  · intro s h
    rw [normalize_numeric_cell, h]

/-- Witness for C4 on the spec's order-of-operations example
`"12,345%"`. -/
theorem normalize_spec_witness : normalize_numeric_cell "12,345%" = 12345 := by
  have h := normalize_spec.2.2.1 "12,345%" ((12345 : ℕ) : ℚ) (by decide)
  rw [h]
  norm_num

lemma leadsWith_iff (p l : List Char) : leadsWith p l = true ↔ p <+: l := by
  induction p generalizing l with
  | nil => simp [leadsWith, List.nil_prefix]
  | cons a ps ih =>
      cases l with
      | nil => simp [leadsWith, List.prefix_nil]
      | cons c cs => simp [leadsWith, List.cons_prefix_cons, ih]

lemma containsSeq_iff (p l : List Char) : containsSeq p l = true ↔ p <:+: l := by
  induction l with
  | nil => simp [containsSeq, leadsWith_iff, List.infix_nil, List.prefix_nil]
  | cons c cs ih => simp [containsSeq, leadsWith_iff, ih, List.infix_cons_iff]

lemma strEndsWith_iff (s pat : String) :
    strEndsWith s pat = true ↔ pat.data <:+ s.data := by
  rw [strEndsWith, leadsWith_iff, List.reverse_prefix]

lemma strContainsSub_iff (s pat : String) :
    strContainsSub s pat = true ↔ pat.data <:+: s.data := by
  rw [strContainsSub, containsSeq_iff]

/-- Characterization of `is_text_col` in terms of abstract list
suffix/infix predicates rather than its own Boolean helpers. -/
lemma is_text_col_eq_true_iff (col : String) :
    is_text_col col = true ↔
      (col = "주차" ∨ col = "날짜" ∨ col = "Date") ∨
      ("순위".data <:+ col.data ∧
        ("키워드".data <:+: col.data ∨ "기사".data <:+: col.data)) := by
  rw [is_text_col]
  by_cases h1 : (col == "주차" || col == "날짜" || col == "Date") = true
  · rw [if_pos h1]
    simp only [Bool.or_eq_true, beq_iff_eq] at h1
    constructor
    · intro _
      exact Or.inl (by tauto)
    · intro _
      rfl
  · rw [if_neg h1]
    simp only [Bool.or_eq_true, beq_iff_eq] at h1
    push_neg at h1
    by_cases h2 : (strEndsWith col "순위" &&
        (strContainsSub col "키워드" || strContainsSub col "기사")) = true
    · rw [if_pos h2]
      simp only [Bool.and_eq_true, Bool.or_eq_true, strEndsWith_iff,
        strContainsSub_iff] at h2
      simp [h2]
    · rw [if_neg h2]
      simp only [Bool.and_eq_true, Bool.or_eq_true, strEndsWith_iff,
        strContainsSub_iff] at h2
      simp only [Bool.false_eq_true, false_iff]
      intro hcon
      rcases hcon with hcon | hcon
      · tauto
      · exact h2 hcon

/-- C5: after whitespace-trimming the column name, a column is TEXT iff
its name is one of the week/date identifiers `주차`/`날짜`/`Date`, or it
ends with the rank marker `순위` and contains the keyword marker `키워드`
or the article marker `기사`; every non-TEXT column is coerced cellwise
through numeric normalization (unparseable cells becoming 0), and TEXT
columns keep trimmed literal strings. -/
theorem is_text_col_spec (name : String) (cells : List String) :
    (is_text_col (strTrim name) = true ↔
      (strTrim name = "주차" ∨ strTrim name = "날짜" ∨ strTrim name = "Date") ∨
      ("순위".data <:+ (strTrim name).data ∧
        ("키워드".data <:+: (strTrim name).data ∨
          "기사".data <:+: (strTrim name).data))) ∧
    (is_text_col (strTrim name) = false →
      preprocess_column name cells =
        ProcCol.nums (cells.map normalize_numeric_cell)) ∧
    (is_text_col (strTrim name) = true →
      preprocess_column name cells = ProcCol.text (cells.map strTrim)) := by
  refine ⟨is_text_col_eq_true_iff _, ?_, ?_⟩
  · intro h
    rw [preprocess_column, if_neg (by simp [h])]
  · intro h
    rw [preprocess_column, if_pos h]

/-- Witness for C5: a metric column is coerced to numbers, and a
keyword-rank column keeps its text. -/
theorem is_text_col_spec_witness :
    preprocess_column "뉴스_PV" ["1,234%"] =
      ProcCol.nums (["1,234%"].map normalize_numeric_cell) ∧
    preprocess_column " 키워드 기사 순위" ["  a "] =
      ProcCol.text (["  a "].map strTrim) :=
  ⟨(is_text_col_spec "뉴스_PV" ["1,234%"]).2.1 (by decide),
   (is_text_col_spec " 키워드 기사 순위" ["  a "]).2.2 (by decide)⟩



/-- Characterization of `firstMatchIdx`: it returns position `i` iff
the row at `i` matches and no earlier row does. -/
lemma firstMatchIdx_eq_some_iff (p : Row → Bool) (l : List Row) (i : ℕ) :
    firstMatchIdx p l = Option.some i ↔
      (∃ r, l[i]? = Option.some r ∧ p r = true) ∧
      ∀ r ∈ l.take i, p r = false := by
  induction l generalizing i with
  | nil => simp [firstMatchIdx]
  | cons a rest ih =>
      by_cases hp : p a = true
      · rw [firstMatchIdx, if_pos hp]
        cases i with
        | zero => simp [hp]
        | succ j => simp [hp]
      · rw [firstMatchIdx, if_neg hp]
        cases i with
        | zero => simp [hp, Bool.not_eq_true] at hp ⊢
        | succ j =>
            simp only [Option.map_eq_some', List.getElem?_cons_succ,
              List.take_succ_cons, List.mem_cons, Bool.not_eq_true] at hp ⊢
            constructor
            · rintro ⟨k, hk, hk1⟩
              have hkj : k = j := by omega
              subst hkj
              obtain ⟨h1, h2⟩ := (ih k).1 hk
              exact ⟨h1, fun r hr => hr.elim (fun e => e ▸ hp) (h2 r)⟩
            · rintro ⟨h1, h2⟩
              exact ⟨j, (ih j).2 ⟨h1, fun r hr => h2 r (Or.inr hr)⟩, rfl⟩

/-- A found first-match position is inside the table. -/
lemma firstMatchIdx_lt_length (p : Row → Bool) (l : List Row) (i : ℕ)
    (h : firstMatchIdx p l = Option.some i) : i < l.length := by
  obtain ⟨⟨r, hr, -⟩, -⟩ := (firstMatchIdx_eq_some_iff p l i).1 h
  exact List.getElem?_eq_some_iff.1 hr |>.1

/-- C6: when the selected week matches some row (at the first matching
position `i`), resolution returns that row as current, and the previous
row is `None` exactly when `i = 0`; for `i >= 1` it is the row at table
position `i - 1` - a positional lookup, not date arithmetic. -/
theorem resolve_prev_spec (rows : List Row) (selected : String) (i : ℕ)
    (h : firstMatchIdx (fun r => r.week == selected) rows = Option.some i) :
    ∃ latest prevOpt,
      resolve rows selected = Option.some (latest, prevOpt) ∧
      rows[i]? = Option.some latest ∧
      (prevOpt = Option.none ↔ i = 0) ∧
      (1 ≤ i → prevOpt = rows[i - 1]?) := by
  have hi : i < rows.length := firstMatchIdx_lt_length _ _ _ h
  obtain ⟨latest, hlat⟩ : ∃ r, rows[i]? = Option.some r :=
    ⟨_, List.getElem?_eq_getElem hi⟩
  refine ⟨latest, if 1 ≤ i then rows[i - 1]? else Option.none, ?_, hlat, ?_, ?_⟩
  · simp only [resolve, h, hlat]
  · by_cases h1 : 1 ≤ i
    · rw [if_pos h1]
      have hi1 : i - 1 < rows.length := by omega
      rw [List.getElem?_eq_getElem hi1]
      simp
      omega
    · rw [if_neg h1]
      simp
      omega
  · intro h1
    rw [if_pos h1]

/-- C10: when the selected label occurs at position `i` and at no
earlier position, resolution uses position `i` as current - later
duplicate occurrences of the label are ignored - and the row just
before `i` as previous. -/
theorem resolve_first_occurrence (rows : List Row) (selected : String) (i : ℕ)
    (r : Row) (hr : rows[i]? = Option.some r) (hmatch : r.week = selected)
    (hfirst : ∀ a ∈ rows.take i, a.week ≠ selected) :
    firstMatchIdx (fun x => x.week == selected) rows = Option.some i ∧
    resolve rows selected =
      Option.some (r, if 1 ≤ i then rows[i - 1]? else Option.none) := by
  have hfm : firstMatchIdx (fun x => x.week == selected) rows =
      Option.some i := by
    rw [firstMatchIdx_eq_some_iff]
    refine ⟨⟨r, hr, by simp [hmatch]⟩, ?_⟩
    intro a ha
    simp [hfirst a ha]
  refine ⟨hfm, ?_⟩
  simp only [resolve, hfm, hr]

/-- C7 (amended): with at least two rows and no matching row, the
resolver falls back to the last row as current and the penultimate row
as previous, with no error; this coincides with explicitly selecting
the last row's label whenever that label's first occurrence is the last
position (with duplicated labels the explicit selection resolves to the
earlier occurrence instead, see the counterexample). -/
theorem resolve_fallback_spec (rows : List Row) (selected : String)
    (h2 : 2 ≤ rows.length)
    (hnone : firstMatchIdx (fun r => r.week == selected) rows = Option.none) :
    ∃ latest prevRow,
      resolve rows selected = Option.some (latest, Option.some prevRow) ∧
      rows.getLast? = Option.some latest ∧
      rows[rows.length - 2]? = Option.some prevRow ∧
      (firstMatchIdx (fun r => r.week == latest.week) rows =
          Option.some (rows.length - 1) →
        resolve rows latest.week = resolve rows selected) := by
  have hlen1 : rows.length - 1 < rows.length := by omega
  have hlen2 : rows.length - 2 < rows.length := by omega
  obtain ⟨latest, hlast⟩ : ∃ r, rows[rows.length - 1]? = Option.some r :=
    ⟨_, List.getElem?_eq_getElem hlen1⟩
  have hgetLast : rows.getLast? = Option.some latest := by
    rw [List.getLast?_eq_getElem?]
    exact hlast
  obtain ⟨prevRow, hprev⟩ : ∃ r, rows[rows.length - 2]? = Option.some r :=
    ⟨_, List.getElem?_eq_getElem hlen2⟩
  have hfb : resolve rows selected = Option.some (latest, Option.some prevRow) := by
    simp only [resolve, hnone, hgetLast, hprev, if_pos h2]
  refine ⟨latest, prevRow, hfb, hgetLast, hprev, ?_⟩
  intro hsel
  have h11 : 1 ≤ rows.length - 1 := by omega
  have heq : rows.length - 1 - 1 = rows.length - 2 := by omega
  rw [hfb]
  simp only [resolve, hsel, hlast, if_pos h11, heq, hprev]



/-- Witness for C6 at the second row of a two-row table. -/
theorem resolve_prev_spec_witness :
    ∃ latest prevOpt,
      resolve [Row.mk "W1" [], Row.mk "W2" []] "W2" =
        Option.some (latest, prevOpt) ∧
      [Row.mk "W1" [], Row.mk "W2" []][1]? = Option.some latest ∧
      (prevOpt = Option.none ↔ 1 = 0) ∧
      (1 ≤ 1 → prevOpt = [Row.mk "W1" [], Row.mk "W2" []][1 - 1]?) :=
  resolve_prev_spec [Row.mk "W1" [], Row.mk "W2" []] "W2" 1 (by decide)

/-- Witness for C10 on a table with a duplicated week label: the first
occurrence (position 1) wins, with position 0 as previous. -/
theorem resolve_first_occurrence_witness :
    firstMatchIdx (fun x => x.week == "W2")
        [Row.mk "W1" [], Row.mk "W2" [], Row.mk "W2" []] = Option.some 1 ∧
    resolve [Row.mk "W1" [], Row.mk "W2" [], Row.mk "W2" []] "W2" =
      Option.some (Row.mk "W2" [],
        if 1 ≤ 1 then [Row.mk "W1" [], Row.mk "W2" [], Row.mk "W2" []][1 - 1]?
        else Option.none) :=
  resolve_first_occurrence [Row.mk "W1" [], Row.mk "W2" [], Row.mk "W2" []]
    "W2" 1 (Row.mk "W2" []) (by decide) rfl (by decide)

/-- Counterexample to C7 as stated: in a two-row table whose week
column is `["W1", "W1"]`, selecting the absent `"W2"` falls back to the
last two rows, but explicitly selecting the last week's label `"W1"`
resolves to the first occurrence (position 0, with no previous row) -
a different `(current, previous)` pair. -/
theorem resolve_fallback_cex :
    (firstMatchIdx (fun r => r.week == "W2")
        [Row.mk "W1" [], Row.mk "W1" []] = Option.none) ∧
    ([Row.mk "W1" [], Row.mk "W1" []].getLast?).map Row.week =
      Option.some "W1" ∧
    resolve [Row.mk "W1" [], Row.mk "W1" []] "W2" ≠
      resolve [Row.mk "W1" [], Row.mk "W1" []] "W1" := by
  refine ⟨by decide, by decide, by decide⟩

/-- Witness for C7 (amended) on a two-row table with distinct labels
and an absent selection. -/
theorem resolve_fallback_spec_witness :
    ∃ latest prevRow,
      resolve [Row.mk "W1" [], Row.mk "W2" []] "W3" =
        Option.some (latest, Option.some prevRow) ∧
      [Row.mk "W1" [], Row.mk "W2" []].getLast? = Option.some latest ∧
      [Row.mk "W1" [],
        Row.mk "W2" []][[Row.mk "W1" [], Row.mk "W2" []].length - 2]? =
        Option.some prevRow ∧
      (firstMatchIdx (fun r => r.week == latest.week)
          [Row.mk "W1" [], Row.mk "W2" []] =
          Option.some ([Row.mk "W1" [], Row.mk "W2" []].length - 1) →
        resolve [Row.mk "W1" [], Row.mk "W2" []] latest.week =
          resolve [Row.mk "W1" [], Row.mk "W2" []] "W3") :=
  resolve_fallback_spec [Row.mk "W1" [], Row.mk "W2" []] "W3" (by decide)
    (by decide)



/-- C8: the surge thresholds are metric-specific configuration, not one
global constant: for every pair of rows the six call sites carry
thresholds 0.1 (both page-view metrics), 0.15 (the app-download
composite), 0.2 (the volatile membership metrics) and 0.05 (the
slow-moving cumulative conversion metric); the values genuinely differ,
and on a uniform +12% week exactly the 0.1- and 0.05-threshold metrics
alert. -/
theorem surge_thresholds_spec :
    (∀ latest : Row, ∀ prev : Option Row,
      (surge_inputs latest prev).map (fun x => (x.1, x.2.2.2)) =
        [("방송 PV", (0.1 : ℚ)), ("뉴스 PV", 0.1), ("방송 앱 다운로드", 0.15),
         ("신규회원", 0.2), ("탈퇴회원", 0.2), ("누적전환회원", 0.05)]) ∧
    ((0.1 : ℚ) ≠ 0.15 ∧ (0.15 : ℚ) ≠ 0.2 ∧ (0.2 : ℚ) ≠ 0.05 ∧
      (0.1 : ℚ) ≠ 0.2 ∧ (0.1 : ℚ) ≠ 0.05) ∧
    run_surge_checks surgeExLatest (Option.some surgeExPrev) =
      [⟨"방송 PV", 100, 112, 12 / 100⟩, ⟨"뉴스 PV", 100, 112, 12 / 100⟩,
       ⟨"누적전환회원", 100, 112, 12 / 100⟩] := by
  refine ⟨fun latest prev => rfl,
    ⟨by norm_num, by norm_num, by norm_num, by norm_num, by norm_num⟩, ?_⟩
  have a1 : getNum surgeExLatest "방송_PV" = 112 := by decide
  have a2 : getNum surgeExLatest "뉴스_PV" = 112 := by decide
  have a3 : getNum surgeExLatest "신규회원" = 112 := by decide
  have a4 : getNum surgeExLatest "탈퇴회원" = 112 := by decide
  have a5 : getNum surgeExLatest "누적전환회원" = 112 := by decide
  have b1 : getPy (Option.some surgeExPrev) "방송_PV" = PyVal.num 100 := by decide
  have b2 : getPy (Option.some surgeExPrev) "뉴스_PV" = PyVal.num 100 := by decide
  have b3 : getPy (Option.some surgeExPrev) "신규회원" = PyVal.num 100 := by decide
  have b4 : getPy (Option.some surgeExPrev) "탈퇴회원" = PyVal.num 100 := by decide
  have b5 : getPy (Option.some surgeExPrev) "누적전환회원" = PyVal.num 100 := by
    decide
  have c1 : getNum surgeExLatest "방송_AOS 다운로드" = 56 := by decide
  have c2 : getNum surgeExLatest "방송_iOS 다운로드" = 56 := by decide
  have c3 : getNum surgeExPrev "방송_AOS 다운로드" = 50 := by decide
  have c4 : getNum surgeExPrev "방송_iOS 다운로드" = 50 := by decide
  have d1 : appTotal surgeExLatest = 112 := by
    rw [appTotal, c1, c2]
    norm_num
  have d2 : appTotal surgeExPrev = 100 := by
    rw [appTotal, c3, c4]
    norm_num
  have hin : surge_inputs surgeExLatest (Option.some surgeExPrev) =
      [("방송 PV", PyVal.num 112, PyVal.num 100, 0.1),
       ("뉴스 PV", PyVal.num 112, PyVal.num 100, 0.1),
       ("방송 앱 다운로드", PyVal.num 112, PyVal.num 100, 0.15),
       ("신규회원", PyVal.num 112, PyVal.num 100, 0.2),
       ("탈퇴회원", PyVal.num 112, PyVal.num 100, 0.2),
       ("누적전환회원", PyVal.num 112, PyVal.num 100, 0.05)] := by
    simp only [surge_inputs, a1, a2, a3, a4, a5, b1, b2, b3, b4, b5, d1, d2]
  have habs : |((112 : ℚ) - 100) / 100| = 12 / 100 := by norm_num
  have kyes : ∀ lb : String, ∀ t : ℚ, t ≤ 12 / 100 →
      check_surge lb (PyVal.num 112) (PyVal.num 100) t =
        Option.some ⟨lb, 100, 112, 12 / 100⟩ := by
    intro lb t ht
    rw [check_surge, if_neg (by simp)]
    simp only [pyFloat?]
    rw [if_neg (by norm_num), if_pos (by rw [habs] ; exact ht)]
    have h12 : ((112 : ℚ) - 100) / 100 = 12 / 100 := by norm_num
    rw [h12]
  have kno : ∀ lb : String, ∀ t : ℚ, ¬ t ≤ 12 / 100 →
      check_surge lb (PyVal.num 112) (PyVal.num 100) t = Option.none := by
    intro lb t ht
    rw [check_surge, if_neg (by simp)]
    simp only [pyFloat?]
    rw [if_neg (by norm_num), if_neg (by rw [habs] ; exact ht)]
  rw [run_surge_checks, hin]
  rw [List.filterMap_cons, List.filterMap_cons, List.filterMap_cons,
    List.filterMap_cons, List.filterMap_cons, List.filterMap_cons,
    List.filterMap_nil]
  simp only [kyes "방송 PV" 0.1 (by norm_num), kyes "뉴스 PV" 0.1 (by norm_num),
    kno "방송 앱 다운로드" 0.15 (by norm_num), kno "신규회원" 0.2 (by norm_num),
    kno "탈퇴회원" 0.2 (by norm_num), kyes "누적전환회원" 0.05 (by norm_num)]

/-- C9: the evidence summary's trailing window has exactly
`min 8 (length)` rows taken as a suffix of the table (chronological
order preserved), each row projected through `safe_int`, which parses
and then truncates toward zero - `2.9` becomes `2` (where rounding
would give `3`), `-2.9` becomes `-2` - and maps unparseable values to
`0`. -/
theorem tail_window_spec (rows : List Row) :
    (tail_rows rows).length = min 8 rows.length ∧
    tailWindow rows 8 <:+ rows ∧
    tail_rows rows = (tailWindow rows 8).map snapshot_of_row ∧
    (∀ q : ℚ, 0 ≤ q → safe_int (PyVal.num q) = ⌊q⌋) ∧
    (∀ q : ℚ, q < 0 → safe_int (PyVal.num q) = ⌈q⌉) ∧
    safe_int (PyVal.num (29 / 10)) = 2 ∧
    safe_int (PyVal.num (-29 / 10)) = -2 ∧
    roundQ (29 / 10) = 3 ∧
    safe_int (PyVal.str "-") = 0 := by
  refine ⟨?_, ?_, rfl, ?_, ?_, ?_, ?_, ?_, rfl⟩
  · rw [tail_rows, List.length_map, tailWindow, List.length_drop]
    omega
  · exact List.drop_suffix _ _
  · intro q hq
    simp only [safe_int, pyFloat?, truncQ]
    rw [if_pos hq]
  · intro q hq
    simp only [safe_int, pyFloat?, truncQ]
    rw [if_neg (by linarith)]
  · simp only [safe_int, pyFloat?, truncQ]
    rw [if_pos (by norm_num), Int.floor_eq_iff]
    constructor <;> norm_num
  · simp only [safe_int, pyFloat?, truncQ]
    rw [if_neg (by norm_num), Int.ceil_eq_iff]
    constructor <;> norm_num
  · rw [roundQ, Int.floor_eq_iff]
    constructor <;> norm_num

/-- Witness for C9's truncation clauses at `q = 7/2` and `q = -7/2`. -/
theorem tail_window_spec_witness :
    safe_int (PyVal.num (7 / 2)) = ⌊(7 / 2 : ℚ)⌋ ∧
    safe_int (PyVal.num (-(7 / 2))) = ⌈(-(7 / 2) : ℚ)⌉ :=
  ⟨(tail_window_spec []).2.2.2.1 (7 / 2) (by norm_num),
   (tail_window_spec []).2.2.2.2.1 (-(7 / 2)) (by norm_num)⟩

end Dashboard
